import Mathlib

/-!
Shallow embedding of `storage/repository/repository.go` (package `repository`
of the fyne fork) together with spec-modelled definitions of the generic
fallback algorithms (`GenericParent`, `GenericChild`, `GenericCopy`,
`GenericMove`), whose implementations are referenced by the package's doc
comments but are not part of this source file.
-/

namespace FyneRepository

/-- Model of `fyne.URI` as the spec's data contract requires: an opaque value
exposing a scheme and a canonical string form `scheme ++ "://" ++ path`.
The path (the part of the string form after the `://` marker) is modelled as a
list of characters so the generic algorithms can manipulate it directly. -/
structure URI where
  scheme : String
  path : List Char
deriving DecidableEq

/-- Canonical string form of a URI: `scheme://path`. -/
def uriString (u : URI) : String :=
  u.scheme ++ "://" ++ String.mk u.path

/-- The path separator used by the generic RFC3986-based algorithms. -/
def sep : Char := '/'

/-- Go errors produced by the package, modelled by their message:
`fmt.Errorf("TODO")` becomes `GoError.errorf "TODO"`. -/
inductive GoError where
  | errorf (msg : String)
deriving DecidableEq

/-- The `repository` package declares no package-level variables: its whole
observable state is empty, modelled by `Unit`. -/
abbrev PkgState : Type := Unit

/-- Repositories are identified by an id; a Go `Repository` interface value is
`some id`, and the Go `nil` interface value is `none`. -/
abbrev RepoVal : Type := Option Nat

/-- Embeds `func Register(scheme string, repository Repository) {}`
(repository.go line 187): the body is empty, so the package state is returned
unchanged and no method of any repository is invoked.  The second component is
the list of repository ids whose `Destroy` method the call invoked. -/
def Register (scheme : String) (repository : RepoVal) (st : PkgState) :
    PkgState × List Nat :=
  (st, [])

/-- Runs a sequence of `Register` calls from a given package state,
accumulating the list of `Destroy` invocations they make. -/
def runRegisters (regs : List (String × RepoVal)) (st : PkgState) :
    PkgState × List Nat :=
  regs.foldl (fun acc r =>
    let s := Register r.1 r.2 acc.1
    (s.1, acc.2 ++ s.2)) (st, [])

/-- Embeds `func RegisteredRepository(u fyne.URI) (Repository, error)`
(repository.go lines 196-198): the body is `return nil, fmt.Errorf("TODO")`. -/
def RegisteredRepository (u : URI) (st : PkgState) : RepoVal × Option GoError :=
  (none, some (.errorf "TODO"))

/-- Error kinds of the spec's error taxonomy (section 7).  `ioFailure` stands
for a backend-originated I/O error (here: a backend whose Delete fails), and
`partFailure` models the spec's `PartialFailureError`. -/
inductive Err where
  | invalidURI
  | notFound
  | alreadyExists
  | ioFailure
  | partFailure
deriving DecidableEq

/-- Whether the canonical string form of the URI ends with the path separator.
The string form is `scheme ++ "://" ++ path`, so it ends with the separator
exactly when the path is empty (the form ends with the `//` marker) or the
path itself ends with the separator. -/
def endsWithSep (u : URI) : Bool :=
  u.path = [] ∨ u.path.getLast? = some sep

/-- Modelled from the spec: normalization used by `GenericParent` — strip a
single trailing path separator from the path if present. -/
def normalizeP (p : List Char) : List Char :=
  if p.getLast? = some sep then p.dropLast else p

/-- Modelled from the spec: strip the final path segment up to and including
the preceding separator.  Returns `none` when no separator remains (the URI is
a root and has no parent). -/
def dropLastSegment (p : List Char) : Option (List Char) :=
  match p.reverse.dropWhile (fun c => c ≠ sep) with
  | [] => none
  | _ :: rest => some rest.reverse

/-- A root URI: no separator remains in the path after normalization (for
example `scheme://`, whose path is empty). -/
def isRoot (u : URI) : Bool :=
  !((normalizeP u.path).any (fun c => c = sep))

/-- Modelled from the spec: `GenericParent(uri)` — not present in this source
file, only referenced by the doc comments of `HierarchicalRepository`.  Takes
the URI's canonical string form, strips a single trailing path separator if
present, then strips the final path segment up to and including the preceding
separator; fails with `InvalidURIError` if the URI is already a root. -/
def GenericParent (u : URI) : Except Err URI :=
  match dropLastSegment (normalizeP u.path) with
  | none => .error .invalidURI
  | some q => .ok ⟨u.scheme, q⟩

/-- Modelled from the spec: `GenericChild(uri, name)` — not present in this
source file, only referenced by the doc comments of `HierarchicalRepository`.
Fails with `InvalidURIError` if `name` contains a path separator; otherwise
appends a separator (if not already present at the end of the URI's string
form) followed by `name`, forming a new URI of the same scheme. -/
def GenericChild (u : URI) (name : List Char) : Except Err URI :=
  if name.any (fun c => c = sep) then .error .invalidURI
  else if endsWithSep u then .ok ⟨u.scheme, u.path ++ name⟩
  else .ok ⟨u.scheme, u.path ++ sep :: name⟩

/-- Modelled from the spec: a backend's resource state, used to give meaning
to the minimal-contract operations the generic copy/move algorithms build on.
`entries` maps URIs to their byte content; `failDelete` simulates a backend
whose `Delete` always errors (the spec's testable property for GenericMove). -/
structure Store where
  entries : List (URI × List Nat)
  failDelete : Bool
deriving DecidableEq

/-- Looks up the content stored at a URI. -/
def lookupE : List (URI × List Nat) → URI → Option (List Nat)
  | [], _ => none
  | (v, d) :: rest, u => if v = u then some d else lookupE rest u

/-- Modelled from the spec: the minimal contract's `Exists(uri)` — true iff a
resource is addressable at the URI. -/
def storeExists (st : Store) (u : URI) : Bool :=
  (lookupE st.entries u).isSome

/-- Modelled from the spec: reading all bytes through the minimal contract's
`OpenReader(uri)`; fails with a not-found error if nothing is stored there. -/
def storeRead (st : Store) (u : URI) : Except Err (List Nat) :=
  match lookupE st.entries u with
  | some d => .ok d
  | none => .error .notFound

/-- Modelled from the spec: writing all bytes through the Writable contract's
`OpenWriter(uri)`: the destination now holds exactly the written bytes. -/
def storeWrite (st : Store) (u : URI) (d : List Nat) : Store :=
  { st with entries := (u, d) :: st.entries.filter (fun e => e.1 != u) }

/-- Modelled from the spec: the Writable contract's `Delete(uri)`.  When
`failDelete` is set the backend's delete always fails with an I/O error. -/
def storeDelete (st : Store) (u : URI) : Except Err Store :=
  if st.failDelete then .error .ioFailure
  else if storeExists st u then
    .ok { st with entries := st.entries.filter (fun e => e.1 != u) }
  else .error .notFound

/-- Modelled from the spec: `GenericCopy(src, dst)` — not present in this
source file, only referenced by the doc comments of `CopyableRepository`.
This is the generic fallback path (steps 2-5 of the spec's algorithm), used
when the native same-scheme Copyable delegation of step 1 does not apply:
if the destination already exists, fail with `AlreadyExistsError`; otherwise
read all bytes from the source (surfacing its error) and write them to the
destination.  The returned store is the state after the call; on error the
state is unchanged. -/
def GenericCopy (st : Store) (src dst : URI) : Store × Except Err Unit :=
  if storeExists st dst then (st, .error .alreadyExists)
  else
    match storeRead st src with
    | .error e => (st, .error e)
    | .ok d => (storeWrite st dst d, .ok ())

/-- Modelled from the spec: `GenericMove(src, dst)` — not present in this
source file, only referenced by the doc comments of `MovableRepository`.
When not delegating to a native Movable backend: perform `GenericCopy` and
invoke `Delete(src)` only if the copy fully succeeded; if the delete fails
after a successful copy, report `PartialFailureError` (`Err.partFailure`). -/
def GenericMove (st : Store) (src dst : URI) : Store × Except Err Unit :=
  match GenericCopy st src dst with
  | (st2, .ok _) =>
    match storeDelete st2 src with
    | .ok st3 => (st3, .ok ())
    | .error _ => (st2, .error .partFailure)
  | (st2, .error e) => (st2, .error e)

/-! Helper lemmas shared by the claim theorems. -/

/-- Dropping over an all-satisfying prefix skips the whole prefix. -/
theorem dropWhile_all_append {α : Type} (pred : α → Bool) (l₁ l₂ : List α)
    (h : ∀ x ∈ l₁, pred x = true) :
    (l₁ ++ l₂).dropWhile pred = l₂.dropWhile pred := by
  induction l₁ with
  | nil => rfl
  | cons a t ih =>
    rw [List.cons_append, List.dropWhile_cons_of_pos (h a (List.mem_cons_self a t))]
    exact ih (fun x hx => h x (List.mem_cons_of_mem a hx))

/-- The head of a nonempty `dropWhile` result fails the predicate. -/
theorem dropWhile_head_false {α : Type} (pred : α → Bool) (l : List α) (c : α)
    (rest : List α) (h : l.dropWhile pred = c :: rest) : pred c = false := by
  induction l with
  | nil => simp [List.dropWhile] at h
  | cons a t ih =>
    by_cases hp : pred a = true
    · rw [List.dropWhile_cons_of_pos hp] at h
      exact ih h
    · rw [List.dropWhile_cons_of_neg hp] at h
      cases h
      exact Bool.not_eq_true _ ▸ Bool.eq_false_iff.mpr hp

/-- Reading the just-written URI returns exactly the written bytes. -/
theorem storeRead_storeWrite_self (st : Store) (u : URI) (d : List Nat) :
    storeRead (storeWrite st u d) u = .ok d := by
  simp [storeRead, storeWrite, lookupE]

/-- Exhaustive case analysis of `GenericCopy`: it fails with
`AlreadyExistsError` on an existing destination, propagates the not-found
error of reading a missing source, and otherwise writes the source bytes to
the destination. -/
theorem genericCopy_cases (st : Store) (src dst : URI) :
    (storeExists st dst = true ∧ GenericCopy st src dst = (st, .error .alreadyExists)) ∨
    (storeExists st dst = false ∧ storeRead st src = .error .notFound ∧
      GenericCopy st src dst = (st, .error .notFound)) ∨
    (∃ d, storeExists st dst = false ∧ storeRead st src = .ok d ∧
      GenericCopy st src dst = (storeWrite st dst d, .ok ())) := by
  by_cases hd : storeExists st dst = true
  · exact Or.inl ⟨hd, by simp [GenericCopy, hd]⟩
  · cases hr : storeRead st src with
    | error e =>
      have he : e = .notFound := by
        unfold storeRead at hr
        cases h : lookupE st.entries src <;> rw [h] at hr <;> simp_all
      subst he
      exact Or.inr (Or.inl ⟨by simpa using hd, rfl, by simp [GenericCopy, hd, hr]⟩)
    | ok d =>
      exact Or.inr (Or.inr ⟨d, by simpa using hd, rfl, by simp [GenericCopy, hd, hr]⟩)

/-! Claim theorems. -/

/-- C1: the claim says that after `Register(s, B)` then `Register(s, B2)` a
lookup for scheme `s` returns `B2` and `B`'s `Destroy` was invoked exactly
once.  The source violates this: evaluating the code on the concrete run
`Register("file", repo 0); Register("file", repo 1)` shows that no `Destroy`
was invoked at all and that the subsequent lookup returns the nil repository
with the error `TODO` instead of repository 1. -/
theorem C1_register_register_lookup_stub :
    (runRegisters [("file", some 0), ("file", some 1)] ()).2 = [] ∧
    RegisteredRepository ⟨"file", ['a']⟩
        (runRegisters [("file", some 0), ("file", some 1)] ()).1 =
      (none, some (.errorf "TODO")) :=
  ⟨rfl, rfl⟩

/-- C2: the claim says a lookup for a URI of an unregistered scheme fails
with a `NotFoundError` whose message is `no repository registered for scheme
X` and returns no backend.  The source does return no backend together with
an error, but the error is the generic `fmt.Errorf("TODO")`, whose message is
not the required one: evaluated here at the URI `file://` with nothing
registered. -/
theorem C2_lookup_unregistered_message :
    RegisteredRepository ⟨"file", []⟩ () = (none, some (.errorf "TODO")) ∧
    "TODO" ≠ "no repository registered for scheme file" :=
  ⟨rfl, by decide⟩

/-- C3: for every URI `u` and regardless of any prior sequence of `Register`
calls, `RegisteredRepository u` returns the nil repository together with a
non-nil error whose message is `TODO`; the lookup never succeeds. -/
theorem C3_lookup_always_todo (regs : List (String × RepoVal)) (u : URI)
    (st : PkgState) :
    RegisteredRepository u (runRegisters regs st).1 =
      (none, some (.errorf "TODO")) :=
  rfl

/-- C4: for every scheme string and every repository value (including the nil
repository), `Register` returns without failing, stores nothing, leaves the
package state unchanged and invokes no method of any repository — in
particular it never invokes `Destroy`. -/
theorem C4_register_is_noop (scheme : String) (repository : RepoVal)
    (st : PkgState) :
    Register scheme repository st = (st, []) :=
  rfl

/-- C7: for every URI `u` and every name containing a path separator,
`GenericChild u name` fails with `InvalidURIError`. -/
theorem C7_generic_child_separator_fails (u : URI) (name : List Char)
    (h : name.any (fun c => c = sep) = true) :
    GenericChild u name = .error .invalidURI := by
  simp [GenericChild, h]

/-- Witness for C7 at the URI `s://a` and the name `x/y`. -/
theorem C7_generic_child_separator_fails_witness :
    (['x', '/', 'y'].any (fun c => c = sep) = true) ∧
    GenericChild ⟨"s", ['a']⟩ ['x', '/', 'y'] = .error .invalidURI :=
  ⟨by decide, C7_generic_child_separator_fails ⟨"s", ['a']⟩ ['x', '/', 'y'] (by decide)⟩

/-- C9: for every store and every source/destination pair where the
destination already exists, the generic fallback copy (the path taken when
the native same-scheme Copyable delegation does not apply) fails with
`AlreadyExistsError` and leaves the destination's original content
unmodified. -/
theorem C9_generic_copy_existing_destination (st : Store) (src dst : URI)
    (h : storeExists st dst = true) :
    (GenericCopy st src dst).2 = .error .alreadyExists ∧
    storeRead (GenericCopy st src dst).1 dst = storeRead st dst := by
  simp [GenericCopy, h]

/-- Witness for C9: copying `mem://a` over the already-present `mem://b`
fails with `AlreadyExistsError` and `mem://b` keeps its content. -/
theorem C9_generic_copy_existing_destination_witness :
    (storeExists ⟨[(⟨"mem", ['a']⟩, [1]), (⟨"mem", ['b']⟩, [9])], false⟩ ⟨"mem", ['b']⟩ = true) ∧
    ((GenericCopy ⟨[(⟨"mem", ['a']⟩, [1]), (⟨"mem", ['b']⟩, [9])], false⟩ ⟨"mem", ['a']⟩ ⟨"mem", ['b']⟩).2 =
        .error .alreadyExists ∧
      storeRead (GenericCopy ⟨[(⟨"mem", ['a']⟩, [1]), (⟨"mem", ['b']⟩, [9])], false⟩ ⟨"mem", ['a']⟩ ⟨"mem", ['b']⟩).1 ⟨"mem", ['b']⟩ =
        storeRead ⟨[(⟨"mem", ['a']⟩, [1]), (⟨"mem", ['b']⟩, [9])], false⟩ ⟨"mem", ['b']⟩) :=
  ⟨by decide,
    C9_generic_copy_existing_destination _ ⟨"mem", ['a']⟩ ⟨"mem", ['b']⟩ (by decide)⟩

/-- C6: `GenericParent` fails with `InvalidURIError` on every root URI (one
with no separator remaining after normalization), and on every non-root URI
it returns the URI of the same scheme whose path is the normalized path with
the final path segment and its preceding separator stripped: the normalized
path decomposes as `q ++ sep :: seg` with `seg` separator-free, and the
parent's path is `q`. -/
theorem C6_generic_parent_spec (u : URI) :
    (isRoot u = true → GenericParent u = .error .invalidURI) ∧
    (isRoot u = false → ∃ q seg, GenericParent u = .ok ⟨u.scheme, q⟩ ∧
      normalizeP u.path = q ++ sep :: seg ∧ ∀ c ∈ seg, c ≠ sep) := by
  constructor
  · intro h
    have hall : ∀ c ∈ normalizeP u.path, ¬ c = sep := by
      simpa [isRoot] using h
    have hnil : (normalizeP u.path).reverse.dropWhile (fun c => c ≠ sep) = [] := by
      rw [List.dropWhile_eq_nil_iff]
      intro x hx
      simpa using hall x (List.mem_reverse.mp hx)
    simp only [GenericParent, dropLastSegment]
    rw [hnil]
  · intro h
    have hex : sep ∈ normalizeP u.path := by
      simpa [isRoot] using h
    have hne : (normalizeP u.path).reverse.dropWhile (fun c => c ≠ sep) ≠ [] := by
      rw [Ne, List.dropWhile_eq_nil_iff]
      intro hall
      have := hall sep (List.mem_reverse.mpr hex)
      simp at this
    obtain ⟨c, rest, hcr⟩ := List.exists_cons_of_ne_nil hne
    have hc : c = sep := by
      have := dropWhile_head_false (fun c => c ≠ sep) _ c rest hcr
      simpa using this
    subst hc
    refine ⟨rest.reverse,
      ((normalizeP u.path).reverse.takeWhile (fun c => c ≠ sep)).reverse, ?_, ?_, ?_⟩
    · simp only [GenericParent, dropLastSegment]
      rw [hcr]
    · have hsplit :
          (normalizeP u.path).reverse.takeWhile (fun c => c ≠ sep) ++ (sep :: rest) =
            (normalizeP u.path).reverse := by
        rw [← hcr]
        exact List.takeWhile_append_dropWhile _ _
      calc normalizeP u.path
          = (normalizeP u.path).reverse.reverse := (List.reverse_reverse _).symm
        _ = ((normalizeP u.path).reverse.takeWhile (fun c => c ≠ sep) ++
              (sep :: rest)).reverse := by rw [hsplit]
        _ = rest.reverse ++ sep ::
              ((normalizeP u.path).reverse.takeWhile (fun c => c ≠ sep)).reverse := by
              simp [List.reverse_append]
    · intro x hx
      have hx2 := List.mem_takeWhile_imp (List.mem_reverse.mp hx)
      simpa using hx2

/-- Witness for C6: the root `s://a` (path `a`, no separator after
normalization) has no parent, and the non-root `s://a/b` decomposes with
parent path `a`. -/
theorem C6_generic_parent_spec_witness :
    GenericParent ⟨"s", ['a']⟩ = .error .invalidURI ∧
    (∃ q seg, GenericParent ⟨"s", ['a', '/', 'b']⟩ = .ok ⟨"s", q⟩ ∧
      normalizeP ['a', '/', 'b'] = q ++ sep :: seg ∧ ∀ c ∈ seg, c ≠ sep) :=
  ⟨(C6_generic_parent_spec ⟨"s", ['a']⟩).1 (by decide),
    (C6_generic_parent_spec ⟨"s", ['a', '/', 'b']⟩).2 (by decide)⟩

/-- C8 counterexample: the claim states the round-trip law for every non-root
URI and every separator-free name, but it fails at the non-root URI
`s://a/b/` (whose string form ends with a separator): the child for name `x`
is `s://a/b/x`, whose generic parent is `s://a/b`, not `s://a/b/`. -/
theorem C8_round_trip_counterexample :
    isRoot ⟨"s", ['a', '/', 'b', '/']⟩ = false ∧
    (['x'].any (fun c => c = sep) = false) ∧
    GenericChild ⟨"s", ['a', '/', 'b', '/']⟩ ['x'] =
      .ok ⟨"s", ['a', '/', 'b', '/', 'x']⟩ ∧
    GenericParent ⟨"s", ['a', '/', 'b', '/', 'x']⟩ = .ok ⟨"s", ['a', '/', 'b']⟩ ∧
    (⟨"s", ['a', '/', 'b']⟩ : URI) ≠ ⟨"s", ['a', '/', 'b', '/']⟩ :=
  ⟨by decide, by decide, rfl, rfl, by decide⟩

/-- C8 (amended): for every non-root URI `u` whose canonical string form does
not end with a path separator and every nonempty name containing no path
separator, `GenericParent (GenericChild u name)` equals `u` (round-trip
law). -/
theorem C8_round_trip_amended (u : URI) (name : List Char)
    (hroot : isRoot u = false)
    (hend : endsWithSep u = false)
    (hname : name ≠ [])
    (hsep : name.any (fun c => c = sep) = false) :
    ∃ v, GenericChild u name = .ok v ∧ GenericParent v = .ok u := by
  have hall : ∀ x ∈ name, ¬ x = sep := by simpa using hsep
  refine ⟨⟨u.scheme, u.path ++ sep :: name⟩, ?_, ?_⟩
  · simp [GenericChild, hsep, hend]
  · have h2 : (sep :: name).getLast? = name.getLast? := by
      cases name with
      | nil => exact absurd rfl hname
      | cons a t => exact List.getLast?_cons_cons
    have hlast : (u.path ++ sep :: name).getLast? ≠ some sep := by
      rw [List.getLast?_append_cons, h2, List.getLast?_eq_getLast name hname]
      intro hcon
      exact hall _ (List.getLast_mem hname) (Option.some.inj hcon)
    have hnorm : normalizeP (u.path ++ sep :: name) = u.path ++ sep :: name := by
      unfold normalizeP
      rw [if_neg hlast]
    have hdrop : (u.path ++ sep :: name).reverse.dropWhile (fun c => c ≠ sep) =
        sep :: u.path.reverse := by
      have hrev : (u.path ++ sep :: name).reverse =
          name.reverse ++ sep :: u.path.reverse := by
        simp [List.reverse_append]
      rw [hrev, dropWhile_all_append (fun c => c ≠ sep) name.reverse
          (sep :: u.path.reverse)
          (fun x hx => by simpa using hall x (List.mem_reverse.mp hx)),
        List.dropWhile_cons_of_neg (by simp)]
    show GenericParent ⟨u.scheme, u.path ++ sep :: name⟩ = .ok u
    simp only [GenericParent, dropLastSegment]
    rw [hnorm, hdrop]
    simp

/-- Witness for C8 at the non-root URI `s://a/b` and the name `x`. -/
theorem C8_round_trip_amended_witness :
    (isRoot ⟨"s", ['a', '/', 'b']⟩ = false) ∧
    (endsWithSep ⟨"s", ['a', '/', 'b']⟩ = false) ∧
    ((['x'] : List Char) ≠ []) ∧
    (['x'].any (fun c => c = sep) = false) ∧
    ∃ v, GenericChild ⟨"s", ['a', '/', 'b']⟩ ['x'] = .ok v ∧
      GenericParent v = .ok ⟨"s", ['a', '/', 'b']⟩ :=
  ⟨by decide, by decide, by decide, by decide,
    C8_round_trip_amended ⟨"s", ['a', '/', 'b']⟩ ['x']
      (by decide) (by decide) (by decide) (by decide)⟩

/-- C10: the generic move performs the generic copy and invokes the delete of
the source only if the copy fully succeeded — when the copy fails with `e`
the move fails with the same `e` (never the partial-failure error) and the
state is unchanged — and when the copy succeeded but the delete of the source
fails, the move fails with `PartialFailureError` (`Err.partFailure`), leaving
the copied content readable at the destination. -/
theorem C10_generic_move_partial_failure (st : Store) (src dst : URI) :
    (∀ e, (GenericCopy st src dst).2 = .error e →
      GenericMove st src dst = (st, .error e) ∧ e ≠ .partFailure) ∧
    ((GenericCopy st src dst).2 = .ok () →
      ∀ e, storeDelete (GenericCopy st src dst).1 src = .error e →
        GenericMove st src dst = ((GenericCopy st src dst).1, .error .partFailure) ∧
        storeRead (GenericMove st src dst).1 dst = storeRead st src) := by
  rcases genericCopy_cases st src dst with ⟨hd, hc⟩ | ⟨hd, hr, hc⟩ | ⟨d, hd, hr, hc⟩
  · refine ⟨fun e he => ?_, fun hok => ?_⟩
    · rw [hc] at he
      simp at he
      subst he
      exact ⟨by simp [GenericMove, hc], by simp⟩
    · rw [hc] at hok
      simp at hok
  · refine ⟨fun e he => ?_, fun hok => ?_⟩
    · rw [hc] at he
      simp at he
      subst he
      exact ⟨by simp [GenericMove, hc], by simp⟩
    · rw [hc] at hok
      simp at hok
  · refine ⟨fun e he => ?_, fun hok e hdel => ?_⟩
    · rw [hc] at he
      simp at he
    · rw [hc] at hdel
      simp only at hdel
      have hmv : GenericMove st src dst = (storeWrite st dst d, .error .partFailure) := by
        simp [GenericMove, hc, hdel]
      rw [hc]
      refine ⟨by simpa using hmv, ?_⟩
      rw [hmv]
      simp [storeRead_storeWrite_self, hr]

/-- Witness for C10: moving `mem://a` (content `[1, 2]`) to the absent
`mem://b` on a backend whose delete always fails yields the partial-failure
error while the destination holds the copied content. -/
theorem C10_generic_move_partial_failure_witness :
    GenericMove ⟨[(⟨"mem", ['a']⟩, [1, 2])], true⟩ ⟨"mem", ['a']⟩ ⟨"mem", ['b']⟩ =
      ((GenericCopy ⟨[(⟨"mem", ['a']⟩, [1, 2])], true⟩ ⟨"mem", ['a']⟩ ⟨"mem", ['b']⟩).1,
        .error .partFailure) ∧
    storeRead
        (GenericMove ⟨[(⟨"mem", ['a']⟩, [1, 2])], true⟩ ⟨"mem", ['a']⟩ ⟨"mem", ['b']⟩).1
        ⟨"mem", ['b']⟩ =
      storeRead ⟨[(⟨"mem", ['a']⟩, [1, 2])], true⟩ ⟨"mem", ['a']⟩ :=
  (C10_generic_move_partial_failure ⟨[(⟨"mem", ['a']⟩, [1, 2])], true⟩
    ⟨"mem", ['a']⟩ ⟨"mem", ['b']⟩).2 rfl .ioFailure rfl

end FyneRepository
